import Mathlib

/-!
Verification of the overload-hardening core of `oshu_work`:
the sliding-window rate limiter (`src/парсер/src/workers/rate_limiter.py`),
the construction-time validators (`src/парсер/src/core/validators.py`),
and the graceful-shutdown coordinator
(`src/парсер/src/core/graceful_shutdown.py`).

The Python code is shallowly embedded:
* wall-clock timestamps (`time.time()` floats) are modelled as exact
  rationals `ℚ`; each `check_limit` call takes its observation of
  `time.time()` as an explicit argument;
* the `threading.Lock`-guarded body of each limiter method is one atomic
  Lean function on the limiter state, so a sequence of interleaved calls
  is a list of atomic calls;
* the per-user `defaultdict(list)` of timestamps is an association list
  with Python-dict semantics (insertion order, replacement in place);
* Python exceptions are values; the distinction between `Exception`
  subclasses (caught by `except Exception`) and `BaseException`-only
  classes such as `SystemExit`, `KeyboardInterrupt` and
  `asyncio.CancelledError` (NOT caught by `except Exception`) is kept,
  since the coordinator's error-handling claims hinge on it;
* log messages are dropped; the retry hint that the code interpolates
  into the denial message is surfaced as a separate `Decision` field.
-/

namespace OshuWork

/-! ### Python numeric values

`validators.RateLimitValidator.validate_rate_limit_config` performs
`isinstance(x, int)` checks, so its inputs must be modelled as dynamically
typed numbers: an `int` or a `float`.  Floats are modelled as exact
rationals (every claim-relevant float value, such as `0.5`, is exactly
representable). -/

inductive PyVal where
  | int (n : ℤ)
  | float (q : ℚ)
deriving DecidableEq, Repr

/-- The numeric value a `PyVal` denotes (Python compares `int` and `float`
by value). -/
def PyVal.toRat : PyVal → ℚ
  | .int n => (n : ℚ)
  | .float q => q

/-- `isinstance(x, int)` for the modelled values. -/
def PyVal.isInt : PyVal → Bool
  | .int _ => true
  | .float _ => false

/-! ### `validators.py`, lines 100-124:
`RateLimitValidator.validate_rate_limit_config(max_requests, window_seconds)`
returns `(is_valid, error_message)`. -/

/-- Embeds `RateLimitValidator.validate_rate_limit_config`.  The checks are
performed in source order; the returned string is the source's error
message (empty on success). -/
def validate_rate_limit_config (max_requests window_seconds : PyVal) :
    Bool × String :=
  if ¬ (max_requests.isInt = true) ∨ max_requests.toRat ≤ 0 then
    (false, "max_requests must be positive integer")
  else if ¬ (window_seconds.isInt = true) ∨ window_seconds.toRat ≤ 0 then
    (false, "window_seconds must be positive integer")
  else if 10000 < max_requests.toRat then
    (false, "max_requests exceeds reasonable limit of 10000")
  else if 86400 < window_seconds.toRat then
    (false, "window_seconds exceeds 24 hours")
  else
    (true, "")

/-- Modelled from the spec (for comparison with the code, not from the
source): "`max_requests ∈ (0, 10000]`, `window_seconds ∈ (0, 86400]`",
with `max_requests` a positive integer and `window_seconds` a positive
real, fractional values permitted. -/
def specAcceptsRateLimitConfig (max_requests window_seconds : PyVal) :
    Bool :=
  max_requests.isInt && decide (0 < max_requests.toRat)
    && decide (max_requests.toRat ≤ 10000)
    && decide (0 < window_seconds.toRat)
    && decide (window_seconds.toRat ≤ 86400)

/-! ### Python `int()` truncation and the ceiling idiom

`rate_limiter.py`, line 66:
`retry_after_int = int(retry_after) + (1 if retry_after > int(retry_after) else 0)`.
Python's `int()` truncates toward zero. -/

/-- Python `int(q)`: truncation toward zero. -/
def pyTrunc (q : ℚ) : ℤ :=
  if q < 0 then ⌈q⌉ else ⌊q⌋

/-- The source's ceiling idiom from `rate_limiter.py` line 66. -/
def pyCeilIdiom (q : ℚ) : ℤ :=
  pyTrunc q + (if (pyTrunc q : ℚ) < q then 1 else 0)

/-! ### Python dict with `defaultdict(list)` semantics

`self.requests: Dict[str, List[float]] = defaultdict(list)`.  Reading a
missing key yields `[]`; assignment replaces in place or appends a new
entry at the end (Python dicts preserve insertion order). -/

/-- `self.requests[user_id]` under `defaultdict(list)`: `[]` when absent. -/
def dictGet : List (String × List ℚ) → String → List ℚ
  | [], _ => []
  | e :: rest, k => if e.1 = k then e.2 else dictGet rest k

/-- `self.requests[user_id] = v`: replace in place, or append a new entry. -/
def dictSet (d : List (String × List ℚ)) (k : String) (v : List ℚ) :
    List (String × List ℚ) :=
  match d with
  | [] => [(k, v)]
  | e :: rest => if e.1 = k then (k, v) :: rest else e :: dictSet rest k v

/-- Python `min(l)` on a list known to be non-empty at every call site
(the denial branch reaches it only when `len(user_requests) >= max_requests`
and the limiter is configured with `max_requests >= 1`; on an empty list
Python's `min` would raise `ValueError`, a state unreachable under a
validated configuration). -/
def pyMinL (l : List ℚ) : ℚ :=
  match l with
  | [] => 0
  | t :: ts => ts.foldl min t

/-! ### `rate_limiter.py`: `RateLimiter` state and `check_limit` -/

/-- `self.stats` of `RateLimiter.__init__` (lines 37-42). -/
structure RLStats where
  total_checks : ℕ
  allowed : ℕ
  blocked : ℕ
  users_tracked : ℕ
deriving DecidableEq, Repr

/-- The mutable state of a `RateLimiter` instance together with its
immutable configuration (lines 33-42). -/
structure RLState where
  max_requests : ℕ
  window_seconds : ℚ
  requests : List (String × List ℚ)
  stats : RLStats
deriving DecidableEq, Repr

/-- `RateLimiter(max_requests, window_seconds)`: fresh instance. -/
def initRL (m : ℕ) (w : ℚ) : RLState :=
  { max_requests := m
    window_seconds := w
    requests := []
    stats := ⟨0, 0, 0, 0⟩ }

/-- The decision returned by `check_limit`: the boolean, and the
`retry_after_int` hint that the denial message interpolates
(`none` on an allowed request). -/
structure Decision where
  allowed : Bool
  retry_after : Option ℤ
deriving DecidableEq, Repr

/-- Embeds `RateLimiter.check_limit(user_id)` (lines 49-85) with the
current `time.time()` observation passed as `now`.  The whole body runs
under `self._lock`, hence one atomic state transition. -/
def check_limit (s : RLState) (now : ℚ) (user_id : String) :
    Decision × RLState :=
  let stats1 := { s.stats with total_checks := s.stats.total_checks + 1 }
  let window_start := now - s.window_seconds
  let user_requests := (dictGet s.requests user_id).filter
    (fun t => window_start < t)
  let requests1 := dictSet s.requests user_id user_requests
  if s.max_requests ≤ user_requests.length then
    let oldest_request := pyMinL user_requests
    let retry_after := oldest_request + s.window_seconds - now
    let retry_after_int := pyCeilIdiom retry_after
    (⟨false, some retry_after_int⟩,
      { s with requests := requests1
               stats := { stats1 with blocked := stats1.blocked + 1 } })
  else
    let requests2 := dictSet s.requests user_id (user_requests ++ [now])
    let users_tracked1 :=
      if stats1.users_tracked < requests2.length then requests2.length
      else stats1.users_tracked
    (⟨true, none⟩,
      { s with requests := requests2
               stats := { stats1 with allowed := stats1.allowed + 1
                                      users_tracked := users_tracked1 } })

/-- The snapshot returned by `RateLimiter.get_stats` (lines 87-101). -/
structure RLStatsSnapshot where
  max_requests : ℕ
  window_seconds : ℚ
  total_checks : ℕ
  allowed : ℕ
  blocked : ℕ
  users : ℕ
  block_rate : ℚ
deriving DecidableEq, Repr

/-- Embeds `RateLimiter.get_stats`: a copy of the counters built under the
lock (no aliasing of mutable state). -/
def get_stats (s : RLState) : RLStatsSnapshot :=
  { max_requests := s.max_requests
    window_seconds := s.window_seconds
    total_checks := s.stats.total_checks
    allowed := s.stats.allowed
    blocked := s.stats.blocked
    users := s.requests.length
    block_rate :=
      if 0 < s.stats.total_checks then
        (s.stats.blocked : ℚ) / (s.stats.total_checks : ℚ) * 100
      else 0 }

/-- A sequence of `check_limit` calls, each atomic under the limiter's
lock: the list gives, in interleaving order, each call's key and its
`time.time()` observation.  Returns the final state and, per call, the
key, the timestamp and the boolean decision. -/
def runCalls (s : RLState) : List (String × ℚ) →
    RLState × List (String × ℚ × Bool)
  | [] => (s, [])
  | (k, t) :: rest =>
    let r := check_limit s t k
    let out := runCalls r.2 rest
    (out.1, (k, t, r.1.allowed) :: out.2)

/-- Among the recorded calls, how many were for key `k`, admitted, and
time-stamped strictly above `cutoff`. -/
def countAllowedAbove (k : String) (cutoff : ℚ)
    (os : List (String × ℚ × Bool)) : ℕ :=
  os.countP (fun r => decide (r.1 = k ∧ r.2.2 = true ∧ cutoff < r.2.1))

/-- Among the recorded calls, how many were for key `k`, admitted, and
time-stamped in the half-open window `(a, a + w]` (the interval shape
matched by the limiter's strict `t > window_start` pruning). -/
def countAllowedIn (k : String) (a w : ℚ)
    (os : List (String × ℚ × Bool)) : ℕ :=
  os.countP (fun r =>
    decide (r.1 = k ∧ r.2.2 = true ∧ a < r.2.1 ∧ r.2.1 ≤ a + w))

/-! ### `graceful_shutdown.py`: the shutdown coordinator

Python errors are modelled as values carrying whether the class derives
from `Exception` (`ValueError`, `RuntimeError`, ...) or only from
`BaseException` (`SystemExit`, `KeyboardInterrupt`, and — since Python
3.8 — `asyncio.CancelledError`).  `except Exception` catches the former
and lets the latter propagate. -/

/-- A raised Python error: `isException = true` iff the class derives
from `Exception` (so `except Exception` catches it). -/
structure PyErr where
  isException : Bool
deriving DecidableEq, Repr

/-- What a registered shutdown handler does when invoked: return
normally, or raise. -/
inductive HandlerBehavior where
  | ok
  | raises (e : PyErr)
deriving DecidableEq, Repr

/-- A tracked background task: whether `task.done()` already holds, and
whether the task cooperates with `task.cancel()` within the wait bound
(a non-cooperative task survives `cancel_background_tasks`, whose
`asyncio.wait_for` timeout is logged, not escalated). -/
structure TaskState where
  done : Bool
  cancels_cooperatively : Bool
deriving DecidableEq, Repr

/-- The state of a `GracefulShutdownManager` instance (lines 16-21). -/
structure GSState where
  background_tasks : List TaskState
  pending_operations : ℤ
  shutdown_handlers : List HandlerBehavior
  shutting_down : Bool
deriving DecidableEq, Repr

/-- `GracefulShutdownManager()`: fresh instance. -/
def initGS : GSState :=
  { background_tasks := []
    pending_operations := 0
    shutdown_handlers := []
    shutting_down := false }

/-- `register_shutdown_handler(handler)` (lines 28-31): append. -/
def register_shutdown_handler (s : GSState) (h : HandlerBehavior) :
    GSState :=
  { s with shutdown_handlers := s.shutdown_handlers ++ [h] }

/-- `register_background_task(task)` (lines 23-26): append. -/
def register_background_task (s : GSState) (t : TaskState) : GSState :=
  { s with background_tasks := s.background_tasks ++ [t] }

/-- `increment_pending_operations` (lines 33-35). -/
def increment_pending_operations (s : GSState) : GSState :=
  { s with pending_operations := s.pending_operations + 1 }

/-- `decrement_pending_operations` (lines 37-40): decrements only when
the counter is strictly positive. -/
def decrement_pending_operations (s : GSState) : GSState :=
  if 0 < s.pending_operations then
    { s with pending_operations := s.pending_operations - 1 }
  else s

/-- An adjustment call to the pending-operation counter. -/
inductive PendingOp where
  | inc
  | dec
deriving DecidableEq, Repr

/-- A sequence of increment/decrement calls on the coordinator. -/
def runPendingOps (s : GSState) : List PendingOp → GSState
  | [] => s
  | .inc :: rest => runPendingOps (increment_pending_operations s) rest
  | .dec :: rest => runPendingOps (decrement_pending_operations s) rest

/-- The body of the `for handler in self.shutdown_handlers` loop of
`execute_shutdown_handlers` (lines 108-119): returns the zero-based
indices of the handlers actually invoked (in invocation order, offset by
`i`) and the error that escaped the loop, if any.  A handler raising an
`Exception` is caught by the per-handler `except Exception` and the loop
continues; an error outside `Exception` propagates and aborts the
loop. -/
def runHandlersFrom (i : ℕ) : List HandlerBehavior →
    List ℕ × Option PyErr
  | [] => ([], none)
  | .ok :: rest =>
    let r := runHandlersFrom (i + 1) rest
    (i :: r.1, r.2)
  | .raises e :: rest =>
    if e.isException then
      let r := runHandlersFrom (i + 1) rest
      (i :: r.1, r.2)
    else
      ([i], some e)

/-- Embeds `execute_shutdown_handlers` (lines 100-121).  The coroutine
reads the handler list and mutates no coordinator state; its observable
outcome is which handlers ran and whether an error escaped. -/
def execute_shutdown_handlers (s : GSState) : List ℕ × Option PyErr :=
  runHandlersFrom 0 s.shutdown_handlers

/-- Embeds `wait_for_pending_operations(timeout)` (lines 42-68) for one
sequential shutdown flow: the poll loop exits at once with `True` when
the counter is already `<= 0`; with no concurrent decrements the counter
never changes, so otherwise the loop runs until `elapsed > timeout` and
returns `False`.  The coordinator state is not modified either way
(purely observational). -/
def wait_for_pending_operations (s : GSState) : Bool :=
  decide (s.pending_operations ≤ 0)

/-- Embeds `cancel_background_tasks(timeout)` (lines 70-98): every task
with `done()` false receives `cancel()`; tasks that cooperate within the
`asyncio.wait_for` bound reach a terminal state, the rest stay running
(the `TimeoutError` is caught and logged, never raised to the caller). -/
def cancel_background_tasks (s : GSState) : GSState :=
  { s with background_tasks :=
      s.background_tasks.map (fun t =>
        if t.done then t
        else { t with done := t.cancels_cooperatively }) }

/-- The observable outcome of one `graceful_shutdown()` call:
which handlers were invoked, the drain result when the drain step was
reached, whether the cancel step was reached, and the error that
propagated to the caller, if any. -/
structure ShutdownTrace where
  ran_sequence : Bool
  executed_handlers : List ℕ
  drain_result : Option Bool
  ran_cancel : Bool
  uncaught : Option PyErr
deriving DecidableEq, Repr

/-- The trace of a call that returned at the re-entrancy guard. -/
def noopTrace : ShutdownTrace :=
  ⟨false, [], none, false, none⟩

/-- Embeds `graceful_shutdown` (lines 123-153).  Returns the new state
and the call's observable trace.
* Re-entrancy guard: when `_shutting_down` is already set, log and
  return immediately (lines 132-134).
* Otherwise set `_shutting_down`, run handlers → drain → cancel inside
  `try`: an error escaping `execute_shutdown_handlers` is outside
  `Exception` (per-handler failures were already caught there), so the
  orchestrator's own `except Exception` (line 150) does not catch it
  either and it propagates to the caller; the drain and cancel steps
  raise nothing in the sequential model.
* `finally` (lines 152-153) clears `_shutting_down` on every path,
  including the propagating-error one. -/
def graceful_shutdown (s : GSState) : GSState × ShutdownTrace :=
  if s.shutting_down then
    (s, noopTrace)
  else
    match execute_shutdown_handlers { s with shutting_down := true } with
    | (idxs, some e) =>
      ({ s with shutting_down := false },
        ⟨true, idxs, none, false, some e⟩)
    | (idxs, none) =>
      ({ cancel_background_tasks { s with shutting_down := true } with
          shutting_down := false },
        ⟨true, idxs,
          some (wait_for_pending_operations { s with shutting_down := true }),
          true, none⟩)

/-- The snapshot returned by `get_status` (lines 155-165). -/
structure GSStatus where
  shutting_down : Bool
  pending_operations : ℤ
  background_tasks : ℕ
  active_tasks : ℕ
  shutdown_handlers : ℕ
deriving DecidableEq, Repr

/-- Embeds `get_status`. -/
def get_status (s : GSState) : GSStatus :=
  { shutting_down := s.shutting_down
    pending_operations := s.pending_operations
    background_tasks := s.background_tasks.length
    active_tasks := (s.background_tasks.filter (fun t => ¬ t.done)).length
    shutdown_handlers := s.shutdown_handlers.length }

/-! ## Supporting lemmas -/

theorem dictGet_dictSet_self (d : List (String × List ℚ)) (k : String)
    (v : List ℚ) : dictGet (dictSet d k v) k = v := by
  induction d with
  | nil => simp [dictGet, dictSet]
  | cons e rest ih =>
    by_cases h : e.1 = k
    · simp [dictGet, dictSet, h]
    · simp [dictGet, dictSet, h, ih]

theorem dictGet_dictSet_ne (d : List (String × List ℚ)) (k k' : String)
    (v : List ℚ) (h : k' ≠ k) :
    dictGet (dictSet d k' v) k = dictGet d k := by
  induction d with
  | nil => simp [dictGet, dictSet, h]
  | cons e rest ih =>
    by_cases he : e.1 = k'
    · simp [dictGet, dictSet, he, h]
    · simp [dictGet, dictSet, he, ih]

theorem check_limit_max_requests (s : RLState) (now : ℚ) (k : String) :
    (check_limit s now k).2.max_requests = s.max_requests := by
  simp only [check_limit]
  split <;> rfl

theorem check_limit_window_seconds (s : RLState) (now : ℚ) (k : String) :
    (check_limit s now k).2.window_seconds = s.window_seconds := by
  simp only [check_limit]
  split <;> rfl

theorem runCalls_max_requests (calls : List (String × ℚ)) :
    ∀ s : RLState, (runCalls s calls).1.max_requests = s.max_requests := by
  induction calls with
  | nil => intro s; rfl
  | cons c rest ih =>
    intro s
    simpa [runCalls, ih] using check_limit_max_requests s c.2 c.1

theorem runCalls_window_seconds (calls : List (String × ℚ)) :
    ∀ s : RLState,
      (runCalls s calls).1.window_seconds = s.window_seconds := by
  induction calls with
  | nil => intro s; rfl
  | cons c rest ih =>
    intro s
    simpa [runCalls, ih] using check_limit_window_seconds s c.2 c.1

/-- A call for another key leaves this key's request log unchanged. -/
theorem check_limit_requests_ne (s : RLState) (now : ℚ) (k k' : String)
    (h : k' ≠ k) :
    dictGet (check_limit s now k').2.requests k = dictGet s.requests k := by
  simp only [check_limit]
  split <;> simp [dictGet_dictSet_ne _ _ _ _ h]

theorem runCalls_requests_of_not_called (calls : List (String × ℚ))
    (k : String) (h : ∀ c ∈ calls, c.1 ≠ k) :
    ∀ s : RLState,
      dictGet (runCalls s calls).1.requests k = dictGet s.requests k := by
  induction calls with
  | nil => intro s; rfl
  | cons c rest ih =>
    intro s
    have hc : c.1 ≠ k := h c (List.mem_cons_self c rest)
    have hrest : ∀ c' ∈ rest, c'.1 ≠ k :=
      fun c' hc' => h c' (List.mem_cons_of_mem c hc')
    calc dictGet (runCalls s (c :: rest)).1.requests k
        = dictGet (runCalls (check_limit s c.2 c.1).2 rest).1.requests k := by
          simp [runCalls]
      _ = dictGet (check_limit s c.2 c.1).2.requests k := ih hrest _
      _ = dictGet s.requests k := check_limit_requests_ne s c.2 k c.1 hc

/-! ## C9: the pending-operation counter -/

theorem runPendingOps_nonneg (ops : List PendingOp) :
    ∀ s : GSState, 0 ≤ s.pending_operations →
      0 ≤ (runPendingOps s ops).pending_operations := by
  induction ops with
  | nil => intro s h; simpa [runPendingOps] using h
  | cons op rest ih =>
    intro s h
    cases op with
    | inc =>
      refine ih _ ?_
      simp only [increment_pending_operations]
      omega
    | dec =>
      refine ih _ ?_
      by_cases hp : 0 < s.pending_operations <;>
        simp [decrement_pending_operations, hp] <;> omega

/-- Claim C9: after every sequence of `increment_pending_operations` /
`decrement_pending_operations` calls on a fresh coordinator the counter
is non-negative, and a decrement at zero leaves it at zero (a no-op, not
an error). -/
theorem pending_counter_nonneg_and_clamped (ops : List PendingOp)
    (s : GSState) (h : s.pending_operations = 0) :
    0 ≤ (runPendingOps initGS ops).pending_operations ∧
    (decrement_pending_operations s).pending_operations = 0 := by
  constructor
  · exact runPendingOps_nonneg ops initGS (by simp [initGS])
  · simp [decrement_pending_operations, h]

theorem pending_counter_nonneg_and_clamped_witness :
    0 ≤ (runPendingOps initGS [PendingOp.dec,
        PendingOp.inc]).pending_operations ∧
    (decrement_pending_operations initGS).pending_operations = 0 :=
  pending_counter_nonneg_and_clamped [PendingOp.dec, PendingOp.inc]
    initGS rfl

/-! ## C10: a fresh key is always admitted -/

/-- Claim C10: with `max_requests ≥ 1`, the first `check_limit` call for a key
never checked before returns `allowed = true`, at any call time and after
any prior calls that were all for other keys. -/
theorem first_check_of_fresh_key_allowed (m : ℕ) (w : ℚ) (k : String)
    (now : ℚ) (calls : List (String × ℚ)) (hm : 1 ≤ m)
    (hk : ∀ c ∈ calls, c.1 ≠ k) :
    (check_limit (runCalls (initRL m w) calls).1 now k).1.allowed
      = true := by
  have hlog : dictGet (runCalls (initRL m w) calls).1.requests k = [] := by
    rw [runCalls_requests_of_not_called calls k hk]
    rfl
  have hmax : (runCalls (initRL m w) calls).1.max_requests = m := by
    rw [runCalls_max_requests]; rfl
  simp only [check_limit, hlog, List.filter_nil, List.length_nil, hmax]
  rw [if_neg (by omega)]

theorem first_check_of_fresh_key_allowed_witness :
    (check_limit (runCalls (initRL 1 1) [("a", (0 : ℚ))]).1 5
      "b").1.allowed = true :=
  first_check_of_fresh_key_allowed 1 1 "b" 5 [("a", (0 : ℚ))]
    (by decide) (by decide)

/-! ## C2: the stats counters -/

theorem check_limit_stats_inv (s : RLState) (now : ℚ) (k : String)
    (h : s.stats.allowed + s.stats.blocked = s.stats.total_checks) :
    (check_limit s now k).2.stats.allowed
      + (check_limit s now k).2.stats.blocked
      = (check_limit s now k).2.stats.total_checks := by
  simp only [check_limit]
  split <;> simp <;> omega

theorem runCalls_stats_inv (calls : List (String × ℚ)) :
    ∀ s : RLState,
      s.stats.allowed + s.stats.blocked = s.stats.total_checks →
      (runCalls s calls).1.stats.allowed
        + (runCalls s calls).1.stats.blocked
        = (runCalls s calls).1.stats.total_checks := by
  induction calls with
  | nil => intro s h; simpa [runCalls] using h
  | cons c rest ih =>
    intro s h
    simpa [runCalls] using ih _ (check_limit_stats_inv s c.2 c.1 h)

/-- Claim C2: after every sequence of atomic `check_limit` calls on a validly
configured limiter, `allowed + blocked = total_checks` holds in the
limiter state, and every `get_stats` snapshot (taken under the same lock,
hence between calls) satisfies the same equation — no observable point
violates it. -/
theorem stats_sum_invariant (m : ℕ) (w : ℚ) (calls : List (String × ℚ))
    (_hm : 1 ≤ m) :
    ((runCalls (initRL m w) calls).1.stats.allowed
      + (runCalls (initRL m w) calls).1.stats.blocked
      = (runCalls (initRL m w) calls).1.stats.total_checks) ∧
    ((get_stats (runCalls (initRL m w) calls).1).allowed
      + (get_stats (runCalls (initRL m w) calls).1).blocked
      = (get_stats (runCalls (initRL m w) calls).1).total_checks) := by
  have h := runCalls_stats_inv calls (initRL m w) (by simp [initRL])
  exact ⟨h, by simpa [get_stats] using h⟩

theorem stats_sum_invariant_witness :
    ((runCalls (initRL 1 1) [("u", (0 : ℚ)), ("u", (0 : ℚ))]).1.stats.allowed
      + (runCalls (initRL 1 1)
          [("u", (0 : ℚ)), ("u", (0 : ℚ))]).1.stats.blocked
      = (runCalls (initRL 1 1)
          [("u", (0 : ℚ)), ("u", (0 : ℚ))]).1.stats.total_checks) ∧
    ((get_stats (runCalls (initRL 1 1)
        [("u", (0 : ℚ)), ("u", (0 : ℚ))]).1).allowed
      + (get_stats (runCalls (initRL 1 1)
          [("u", (0 : ℚ)), ("u", (0 : ℚ))]).1).blocked
      = (get_stats (runCalls (initRL 1 1)
          [("u", (0 : ℚ)), ("u", (0 : ℚ))]).1).total_checks) :=
  stats_sum_invariant 1 1 [("u", (0 : ℚ)), ("u", (0 : ℚ))] (by decide)

/-! ## C6: the retry hint of a denied call -/

/-- The source's `int()`-plus-adjustment idiom (line 66) computes the
exact ceiling. -/
theorem pyCeilIdiom_eq_ceil (q : ℚ) : pyCeilIdiom q = ⌈q⌉ := by
  by_cases hq : q < 0
  · simp only [pyCeilIdiom, pyTrunc, if_pos hq]
    rw [if_neg (not_lt.mpr (Int.le_ceil q))]
    omega
  · simp only [pyCeilIdiom, pyTrunc, if_neg hq]
    by_cases h2 : (⌊q⌋ : ℚ) < q
    · rw [if_pos h2]
      have hup : ⌈q⌉ ≤ ⌊q⌋ + 1 := by
        refine Int.ceil_le.mpr ?_
        push_cast
        exact le_of_lt (Int.lt_floor_add_one q)
      have hlow : ⌊q⌋ < ⌈q⌉ := by
        have h3 : (⌊q⌋ : ℚ) < (⌈q⌉ : ℚ) := lt_of_lt_of_le h2 (Int.le_ceil q)
        exact_mod_cast h3
      omega
    · rw [if_neg h2]
      have hq' : q = (⌊q⌋ : ℚ) :=
        le_antisymm (not_lt.mp h2) (Int.floor_le q)
      rw [hq']
      simp

theorem lt_foldl_min (c : ℚ) (ts : List ℚ) :
    ∀ t : ℚ, c < t → (∀ x ∈ ts, c < x) → c < ts.foldl min t := by
  induction ts with
  | nil => intro t ht _; simpa using ht
  | cons a ts ih =>
    intro t ht hall
    simp only [List.foldl_cons]
    exact ih (min t a) (lt_min ht (hall a (by simp)))
      (fun x hx => hall x (by simp [hx]))

theorem lt_pyMinL (c : ℚ) (l : List ℚ) (hne : l ≠ [])
    (h : ∀ x ∈ l, c < x) : c < pyMinL l := by
  cases l with
  | nil => exact absurd rfl hne
  | cons t ts =>
    exact lt_foldl_min c ts t (h t (by simp))
      (fun x hx => h x (by simp [hx]))

/-- Claim C6: every denied `check_limit` call reports
`retry_after = ceil(oldest_remaining_timestamp + window_seconds - now)`
floored at 0, and this value is never negative (in fact the floor never
bites: the pruned log's oldest survivor is strictly inside the window, so
the ceiling is already positive). -/
theorem denied_retry_after (s : RLState) (now : ℚ) (k : String)
    (hm : 1 ≤ s.max_requests)
    (hd : (check_limit s now k).1.allowed = false) :
    ∃ r : ℤ, (check_limit s now k).1.retry_after = some r ∧
      r = max 0 ⌈pyMinL (dictGet (check_limit s now k).2.requests k)
            + s.window_seconds - now⌉ ∧
      0 ≤ r := by
  by_cases hlen : s.max_requests ≤
      ((dictGet s.requests k).filter
        (fun t => decide (now - s.window_seconds < t))).length
  · set pruned := (dictGet s.requests k).filter
      (fun t => decide (now - s.window_seconds < t)) with hpruned
    have hck : check_limit s now k =
        (⟨false, some (pyCeilIdiom (pyMinL pruned + s.window_seconds - now))⟩,
          { s with requests := dictSet s.requests k pruned
                   stats := { s.stats with
                              total_checks := s.stats.total_checks + 1
                              blocked := s.stats.blocked + 1 } }) := by
      simp only [check_limit, ← hpruned]
      rw [if_pos hlen]
    have hpost : dictGet (check_limit s now k).2.requests k = pruned := by
      rw [hck]
      exact dictGet_dictSet_self s.requests k pruned
    have hne : pruned ≠ [] := by
      intro h0
      rw [h0] at hlen
      simp at hlen
      omega
    have hmem : ∀ x ∈ pruned, now - s.window_seconds < x := by
      intro x hx
      have := (List.mem_filter.mp hx).2
      exact of_decide_eq_true this
    have hmin : now - s.window_seconds < pyMinL pruned :=
      lt_pyMinL _ pruned hne hmem
    have hposq : 0 < pyMinL pruned + s.window_seconds - now := by linarith
    have hceil : 0 < ⌈pyMinL pruned + s.window_seconds - now⌉ :=
      Int.ceil_pos.mpr hposq
    refine ⟨pyCeilIdiom (pyMinL pruned + s.window_seconds - now), ?_, ?_, ?_⟩
    · rw [hck]
    · rw [hpost, pyCeilIdiom_eq_ceil, max_eq_right (le_of_lt hceil)]
    · rw [pyCeilIdiom_eq_ceil]
      exact le_of_lt hceil
  · exfalso
    simp only [check_limit] at hd
    rw [if_neg hlen] at hd
    simp at hd

theorem denied_retry_after_witness :
    ∃ r : ℤ,
      (check_limit (runCalls (initRL 1 1) [("u", (0 : ℚ))]).1 0
          "u").1.retry_after = some r ∧
      r = max 0 ⌈pyMinL (dictGet (check_limit
            (runCalls (initRL 1 1) [("u", (0 : ℚ))]).1 0
            "u").2.requests "u")
          + (runCalls (initRL 1 1) [("u", (0 : ℚ))]).1.window_seconds
          - 0⌉ ∧
      0 ≤ r :=
  denied_retry_after (runCalls (initRL 1 1) [("u", (0 : ℚ))]).1 0 "u"
    (by decide) (by with_unfolding_all rfl)

/-! ## C5: the construction-time rate-limit validator -/

/-- Claim C5 counterexample: a fractional `window_seconds` of `0.5` — a
positive real well inside `(0, 86400]`, which the claim says the
validator accepts — is rejected by `validate_rate_limit_config`, whose
`isinstance(window_seconds, int)` check fails on a float. -/
theorem validate_fractional_window_rejected :
    (validate_rate_limit_config (PyVal.int 5)
        (PyVal.float (1 / 2))).1 = false ∧
    specAcceptsRateLimitConfig (PyVal.int 5)
        (PyVal.float (1 / 2)) = true := by
  constructor <;> with_unfolding_all rfl

/-- Claim C5 amended: the validator accepts a configuration exactly when BOTH
parameters are Python `int`s with `0 < max_requests ≤ 10000` and
`0 < window_seconds ≤ 86400`; every other value — out-of-range integers
and all non-integers, including fractional `window_seconds` — is reported
as a configuration error. -/
theorem validate_rate_limit_config_iff (mr ws : PyVal) :
    (validate_rate_limit_config mr ws).1 = true ↔
      (mr.isInt = true ∧ 0 < mr.toRat ∧ mr.toRat ≤ 10000 ∧
       ws.isInt = true ∧ 0 < ws.toRat ∧ ws.toRat ≤ 86400) := by
  simp only [validate_rate_limit_config]
  split_ifs with h1 h2 h3 h4
  · simp only [Bool.false_eq_true, false_iff]
    rintro ⟨hint, hpos, -, -, -, -⟩
    rcases h1 with h1 | h1
    · exact h1 hint
    · linarith
  · simp only [Bool.false_eq_true, false_iff]
    rintro ⟨-, -, -, hwint, hwpos, -⟩
    rcases h2 with h2 | h2
    · exact h2 hwint
    · linarith
  · simp only [Bool.false_eq_true, false_iff]
    rintro ⟨-, -, hle, -, -, -⟩
    linarith
  · simp only [Bool.false_eq_true, false_iff]
    rintro ⟨-, -, -, -, -, hwle⟩
    linarith
  · simp only [true_iff]
    push_neg at h1 h2
    exact ⟨h1.1, h1.2, le_of_not_lt h3, h2.1, h2.2, le_of_not_lt h4⟩

/-! ## Supporting lemmas for the shutdown coordinator -/

/-- Only an error outside `Exception` can escape the handler loop: the
per-handler `except Exception` (line 118) catches everything else. -/
theorem runHandlersFrom_err_not_exception :
    ∀ (hs : List HandlerBehavior) (i : ℕ) (e : PyErr),
      (runHandlersFrom i hs).2 = some e → e.isException = false := by
  intro hs
  induction hs with
  | nil => intro i e h; simp [runHandlersFrom] at h
  | cons b rest ih =>
    intro i e h
    cases b with
    | ok => exact ih (i + 1) e h
    | raises e' =>
      by_cases he' : e'.isException = true
      · rw [runHandlersFrom, if_pos he'] at h
        exact ih (i + 1) e h
      · rw [runHandlersFrom, if_neg he'] at h
        simp at h
        rw [← h]
        simpa using he'

/-- When every handler failure is an `Exception`-class error, the loop
invokes every handler, in order, and nothing escapes. -/
theorem runHandlersFrom_all_exceptions
    (hs : List HandlerBehavior)
    (h : ∀ b ∈ hs, ∀ e, b = HandlerBehavior.raises e →
      e.isException = true) :
    ∀ i : ℕ, runHandlersFrom i hs =
      ((List.range hs.length).map (i + ·), none) := by
  induction hs with
  | nil => intro i; simp [runHandlersFrom]
  | cons b rest ih =>
    intro i
    have hrest : ∀ b' ∈ rest, ∀ e, b' = HandlerBehavior.raises e →
        e.isException = true :=
      fun b' hb' => h b' (List.mem_cons_of_mem b hb')
    have hmap : (List.range (b :: rest).length).map (i + ·)
        = i :: (List.range rest.length).map (i + 1 + ·) := by
      rw [List.length_cons, List.range_succ_eq_map, List.map_cons,
        List.map_map]
      refine congrArg₂ _ (by omega) (List.map_congr_left ?_)
      intro x _
      simp only [Function.comp_apply]
      omega
    cases b with
    | ok =>
      rw [runHandlersFrom, ih hrest (i + 1), hmap]
    | raises e' =>
      have he' : e'.isException = true :=
        h _ (List.mem_cons_self _ _) e' rfl
      rw [runHandlersFrom, if_pos he', ih hrest (i + 1), hmap]

/-- A run of the sequence (a call that passed the re-entrancy guard)
reports `ran_sequence` and leaves the state `Idle` on every outcome. -/
theorem graceful_shutdown_runs (s : GSState)
    (h : s.shutting_down = false) :
    (graceful_shutdown s).2.ran_sequence = true ∧
    (graceful_shutdown s).1.shutting_down = false := by
  rw [graceful_shutdown, if_neg (by simp [h])]
  constructor
  · split <;> rfl
  · split <;> rfl

/-- `graceful_shutdown` never touches the pending-operation counter
(the drain step is purely observational; only the poll's timeout bounds
it). -/
theorem graceful_shutdown_pending (s : GSState) :
    (graceful_shutdown s).1.pending_operations =
      s.pending_operations := by
  rw [graceful_shutdown]
  split
  · rfl
  · split <;> simp [cancel_background_tasks]

/-! ## C8: handler execution order and failure isolation -/

/-- Claim C8 counterexample: a handler raising a `BaseException`-only error
(e.g. `SystemExit` or `asyncio.CancelledError`, which `except Exception`
at line 118 does not catch) aborts the loop: only handler 0 is invoked,
handler 1 never runs, and the error escapes — the claim's "all
subsequent handlers are still invoked" fails at this input. -/
theorem handler_base_error_aborts_sequence :
    execute_shutdown_handlers
        { initGS with shutdown_handlers :=
            [HandlerBehavior.raises ⟨false⟩, HandlerBehavior.ok] } =
      ([0], some ⟨false⟩) ∧
    (execute_shutdown_handlers
        { initGS with shutdown_handlers :=
            [HandlerBehavior.raises ⟨false⟩, HandlerBehavior.ok] }).1 ≠
      [0, 1] := by
  decide

/-- Claim C8 amended: `execute_shutdown_handlers` invokes the registered
handlers at most once each, in registration order; whenever every
handler failure is an `Exception`-class error (the only kind
`except Exception` catches), all handlers are invoked exactly once, in
order, and no error escapes.  A `BaseException`-only failure instead
aborts the remainder of the sequence. -/
theorem handlers_run_in_order (s : GSState)
    (h : ∀ b ∈ s.shutdown_handlers, ∀ e,
      b = HandlerBehavior.raises e → e.isException = true) :
    (execute_shutdown_handlers s).1 =
      List.range s.shutdown_handlers.length ∧
    (execute_shutdown_handlers s).2 = none := by
  have := runHandlersFrom_all_exceptions s.shutdown_handlers h 0
  rw [execute_shutdown_handlers, this]
  constructor
  · simp
  · rfl

theorem handlers_run_in_order_witness :
    (execute_shutdown_handlers
        { initGS with shutdown_handlers :=
            [HandlerBehavior.ok, HandlerBehavior.raises ⟨true⟩] }).1 =
      List.range 2 ∧
    (execute_shutdown_handlers
        { initGS with shutdown_handlers :=
            [HandlerBehavior.ok, HandlerBehavior.raises ⟨true⟩] }).2 =
      none := by
  have h := handlers_run_in_order
    { initGS with shutdown_handlers :=
        [HandlerBehavior.ok, HandlerBehavior.raises ⟨true⟩] }
    (by
      intro b hb e hbe
      subst hbe
      simp only [List.mem_cons, List.not_mem_nil, or_false] at hb
      rcases hb with hb | hb
      · exact HandlerBehavior.noConfusion hb
      · injection hb with hb'
        rw [hb'])
  exact h

/-! ## C7: exception containment in `graceful_shutdown` -/

/-- Claim C7 counterexample: a registered handler that raises a
`BaseException`-only error (e.g. `asyncio.CancelledError` or
`SystemExit`) defeats both the per-handler `except Exception` (line 118)
and the orchestrator's `except Exception` (line 150): the error
propagates to `graceful_shutdown`'s caller, refuting "the exception
never propagates".  The `finally` still returns the state to Idle. -/
theorem shutdown_base_error_propagates :
    (graceful_shutdown { initGS with shutdown_handlers :=
        [HandlerBehavior.raises ⟨false⟩] }).2.uncaught = some ⟨false⟩ ∧
    (graceful_shutdown { initGS with shutdown_handlers :=
        [HandlerBehavior.raises ⟨false⟩] }).1.shutting_down = false := by
  decide

/-- Claim C7 amended: every `Exception`-class error arising in the
handler→drain→cancel sequence is caught (any error that does reach the
caller is `BaseException`-only, such as cancellation or `SystemExit`),
and on every outcome — success, caught failure, or propagating
`BaseException` — the `finally` transitions the state back to Idle. -/
theorem shutdown_catches_exceptions_and_resets (s : GSState)
    (h : s.shutting_down = false) :
    (graceful_shutdown s).1.shutting_down = false ∧
    (∀ e, (graceful_shutdown s).2.uncaught = some e →
      e.isException = false) := by
  refine ⟨(graceful_shutdown_runs s h).2, ?_⟩
  intro e he
  rw [graceful_shutdown, if_neg (by simp [h])] at he
  split at he
  case _ idxs e' heq =>
    have he' : e' = e := by simpa using he
    have h2 := congrArg Prod.snd heq
    simp only [execute_shutdown_handlers] at h2
    rw [← he']
    exact runHandlersFrom_err_not_exception _ 0 e' h2
  case _ idxs heq =>
    simp at he

theorem shutdown_catches_exceptions_and_resets_witness :
    (graceful_shutdown initGS).1.shutting_down = false :=
  (shutdown_catches_exceptions_and_resets initGS rfl).1

/-! ## C3: idempotence of `graceful_shutdown` -/

/-- Claim C3 counterexample: two strictly sequential `graceful_shutdown`
calls.  The `finally` (lines 152-153) has already reset
`_shutting_down`, so the second call passes the guard and re-runs the
registered handler — two full runs of the sequence, refuting "exactly
one full run ... the second invocation returns without re-running the
handlers". -/
theorem second_sequential_shutdown_reruns_handlers :
    (graceful_shutdown { initGS with shutdown_handlers :=
        [HandlerBehavior.ok] }).2.executed_handlers = [0] ∧
    (graceful_shutdown (graceful_shutdown { initGS with
        shutdown_handlers :=
          [HandlerBehavior.ok] }).1).2.executed_handlers = [0] ∧
    (graceful_shutdown (graceful_shutdown { initGS with
        shutdown_handlers :=
          [HandlerBehavior.ok] }).1).2.ran_sequence = true := by
  decide

/-- Claim C3 amended: the re-entrancy guard only protects an *overlapping*
second call: a call arriving while `_shutting_down` is set returns
immediately with no effect and runs no handlers.  A second call that
strictly follows a completed first call finds the state reset to Idle
and re-runs the full handler→drain→cancel sequence. -/
theorem shutdown_reentrancy_guard (s : GSState) :
    (s.shutting_down = true → graceful_shutdown s = (s, noopTrace)) ∧
    (s.shutting_down = false →
      (graceful_shutdown s).2.ran_sequence = true ∧
      (graceful_shutdown s).1.shutting_down = false ∧
      (graceful_shutdown (graceful_shutdown s).1).2.ran_sequence
        = true) := by
  constructor
  · intro h
    rw [graceful_shutdown, if_pos (by simp [h])]
  · intro h
    obtain ⟨h1, h2⟩ := graceful_shutdown_runs s h
    exact ⟨h1, h2, (graceful_shutdown_runs _ h2).1⟩

theorem shutdown_reentrancy_guard_witness :
    (graceful_shutdown initGS).2.ran_sequence = true ∧
    (graceful_shutdown initGS).1.shutting_down = false ∧
    (graceful_shutdown (graceful_shutdown initGS).1).2.ran_sequence
      = true :=
  (shutdown_reentrancy_guard initGS).2 rfl

/-! ## C4: `get_status` after a completed shutdown -/

/-- Claim C4 counterexample: start from a coordinator with one pending
operation that is never decremented.  `graceful_shutdown` runs to
completion (`wait_for_pending_operations` times out, its `False` result
is ignored), yet `get_status` then reports `pending_operations = 1`,
refuting "reports ... pending_operations=0" for this state. -/
theorem completed_shutdown_pending_nonzero :
    (graceful_shutdown { initGS with
        pending_operations := 1 }).2.ran_sequence = true ∧
    (get_status (graceful_shutdown { initGS with
        pending_operations := 1 }).1).shutting_down = false ∧
    (get_status (graceful_shutdown { initGS with
        pending_operations := 1 }).1).pending_operations = 1 := by
  decide

/-- Claim C4 amended: after a completed `graceful_shutdown`, `get_status`
always reports `shutting_down = false`; it reports the pending-operation
counter unchanged from shutdown entry — so `pending_operations = 0`
exactly when the counter had already drained to zero, while a drain
timeout leaves a positive counter visible. -/
theorem status_after_completed_shutdown (s : GSState)
    (h : s.shutting_down = false) :
    (get_status (graceful_shutdown s).1).shutting_down = false ∧
    (get_status (graceful_shutdown s).1).pending_operations
      = s.pending_operations ∧
    ((get_status (graceful_shutdown s).1).pending_operations = 0 ↔
      s.pending_operations = 0) := by
  have h1 := (graceful_shutdown_runs s h).2
  have h2 := graceful_shutdown_pending s
  refine ⟨?_, ?_, ?_⟩ <;> simp [get_status, h1, h2]

theorem status_after_completed_shutdown_witness :
    (get_status (graceful_shutdown initGS).1).shutting_down = false ∧
    (get_status (graceful_shutdown initGS).1).pending_operations
      = initGS.pending_operations ∧
    ((get_status (graceful_shutdown initGS).1).pending_operations = 0 ↔
      initGS.pending_operations = 0) :=
  status_after_completed_shutdown initGS rfl

/-! ## C1: the sliding-window admission bound

Strategy: a ghost characterization of each key's request log.  After any
prefix of (clock-monotone) calls, the log of key `k` is exactly the list
of `k`'s admitted timestamps filtered by the cutoff of `k`'s last call
(`last call time − window`): pruning at each call only tightens the
cutoff, and admission appends the call's own timestamp.  From the
characterization, whenever a call is admitted, fewer than `max_requests`
earlier admitted calls for the same key have timestamps inside the
window ending at the new call — and a pure counting argument turns that
per-admission bound into the `(a, a + w]`-interval bound. -/

theorem filter_filter_above (l : List ℚ) (c1 c2 : ℚ) (h : c1 ≤ c2) :
    (l.filter (fun x => decide (c1 < x))).filter
      (fun x => decide (c2 < x)) = l.filter (fun x => decide (c2 < x)) := by
  induction l with
  | nil => rfl
  | cons a l ih =>
    by_cases h1 : c1 < a
    · by_cases h2 : c2 < a <;> simp [List.filter_cons, h1, h2, ih]
    · have h2 : ¬ c2 < a := fun hc => h1 (lt_of_le_of_lt h hc)
      simp [List.filter_cons, h1, h2, ih]

theorem countP_le_countP {α : Type} (p q : α → Bool) (l : List α)
    (h : ∀ x ∈ l, p x = true → q x = true) :
    l.countP p ≤ l.countP q := by
  induction l with
  | nil => simp
  | cons a l ih =>
    rw [List.countP_cons, List.countP_cons]
    have hle := ih (fun x hx => h x (List.mem_cons_of_mem a hx))
    by_cases hp : p a = true
    · rw [if_pos hp, if_pos (h a (List.mem_cons_self a l) hp)]
      omega
    · rw [if_neg hp]
      omega

/-- A `check_limit` call admits exactly when the pruned log is below the
configured maximum. -/
theorem check_limit_allowed_iff (s : RLState) (now : ℚ) (k : String) :
    (check_limit s now k).1.allowed = true ↔
      ((dictGet s.requests k).filter
        (fun x => decide (now - s.window_seconds < x))).length
        < s.max_requests := by
  simp only [check_limit]
  split
  case isTrue h => simp; omega
  case isFalse h => simp; omega

/-- After a `check_limit` call, the key's log is the pruned log, plus
the call's own timestamp when it was admitted. -/
theorem check_limit_requests_self (s : RLState) (now : ℚ) (k : String) :
    dictGet (check_limit s now k).2.requests k =
      (dictGet s.requests k).filter
        (fun x => decide (now - s.window_seconds < x))
      ++ (if (check_limit s now k).1.allowed then [now] else []) := by
  simp only [check_limit]
  split
  case isTrue h => simp [dictGet_dictSet_self]
  case isFalse h => simp [dictGet_dictSet_self]

/-- The per-admission bound, proved by induction along the call
sequence with a ghost characterization of the state: `A k` is the list
of `k`'s already-admitted timestamps, `c k` the cutoff of `k`'s last
pruning, and `mx` a lower bound for all remaining call times (monotone
clock).  Whenever the recorded trace admits a call `(kk, t)`, fewer than
`m` admitted calls for `kk` — earlier ghost ones plus earlier trace
ones — have timestamps strictly inside `(t - w, ∞)`. -/
theorem runCalls_admission (w : ℚ) (m : ℕ) (hw : 0 < w) :
    ∀ (calls : List (String × ℚ)) (s : RLState) (A : String → List ℚ)
      (c : String → ℚ) (mx : ℚ),
      s.max_requests = m → s.window_seconds = w →
      (∀ k, dictGet s.requests k =
        (A k).filter (fun x => decide (c k < x))) →
      (∀ k, c k + w ≤ mx) →
      (∀ x ∈ calls.map Prod.snd, mx ≤ x) →
      List.Pairwise (· ≤ ·) (calls.map Prod.snd) →
      ∀ pre kk t post,
        (runCalls s calls).2 = pre ++ (kk, t, true) :: post →
        (A kk).countP (fun x => decide (t - w < x))
          + countAllowedAbove kk (t - w) pre < m := by
  intro calls
  induction calls with
  | nil =>
    intro s A c mx hmax hwin hinv hcut htimes hpair pre kk t post hdec
    cases pre <;> simp [runCalls] at hdec
  | cons c0 rest ih =>
    intro s A c mx hmax hwin hinv hcut htimes hpair pre kk t post hdec
    obtain ⟨k₀, t₀⟩ := c0
    have hmxt : mx ≤ t₀ := htimes t₀ (by simp)
    have hck : c k₀ ≤ t₀ - w := by have := hcut k₀; linarith
    have hfil : (dictGet s.requests k₀).filter
        (fun x => decide (t₀ - s.window_seconds < x))
        = (A k₀).filter (fun x => decide (t₀ - w < x)) := by
      rw [hwin, hinv k₀]
      exact filter_filter_above (A k₀) (c k₀) (t₀ - w) hck
    have hall : (check_limit s t₀ k₀).1.allowed = true ↔
        ((A k₀).filter (fun x => decide (t₀ - w < x))).length < m := by
      rw [check_limit_allowed_iff, hfil, hmax]
    simp only [List.map_cons] at hpair
    rw [List.pairwise_cons] at hpair
    obtain ⟨hhead, hpair'⟩ := hpair
    -- the updated ghost state after this call
    have hstep := ih (check_limit s t₀ k₀).2
      (Function.update A k₀ (A k₀ ++
        (if (check_limit s t₀ k₀).1.allowed = true then [t₀] else [])))
      (Function.update c k₀ (t₀ - w)) t₀
      (by rw [check_limit_max_requests, hmax])
      (by rw [check_limit_window_seconds, hwin])
      (by
        intro j
        by_cases hj : j = k₀
        · subst hj
          rw [check_limit_requests_self, hfil, Function.update_same,
            Function.update_same, List.filter_append]
          congr 1
          split
          · simp [show t₀ - w < t₀ by linarith]
          · simp
        · rw [check_limit_requests_ne s t₀ j k₀ (fun h => hj h.symm),
            Function.update_noteq hj, Function.update_noteq hj]
          exact hinv j)
      (by
        intro j
        by_cases hj : j = k₀
        · subst hj
          rw [Function.update_same]
          linarith
        · rw [Function.update_noteq hj]
          have := hcut j; linarith)
      (by intro x hx; exact hhead x hx)
      hpair'
    simp only [runCalls] at hdec
    cases pre with
    | nil =>
      simp only [List.nil_append] at hdec
      obtain ⟨h1, h2⟩ := List.cons_eq_cons.mp hdec
      obtain ⟨hk1, ht1, hfl⟩ : k₀ = kk ∧ t₀ = t ∧
          (check_limit s t₀ k₀).1.allowed = true := by
        simpa [Prod.ext_iff] using h1
      subst hk1
      subst ht1
      have hlen := hall.mp hfl
      rw [← List.countP_eq_length_filter] at hlen
      simpa [countAllowedAbove] using hlen
    | cons r pre' =>
      simp only [List.cons_append] at hdec
      obtain ⟨h1, h2⟩ := List.cons_eq_cons.mp hdec
      have hb := hstep pre' kk t post h2
      rw [← h1]
      have hcons : countAllowedAbove kk (t - w)
          ((k₀, t₀, (check_limit s t₀ k₀).1.allowed) :: pre')
          = countAllowedAbove kk (t - w) pre'
            + (if (k₀ = kk ∧ (check_limit s t₀ k₀).1.allowed = true
                  ∧ t - w < t₀) then 1 else 0) := by
        rw [countAllowedAbove, List.countP_cons, ← countAllowedAbove]
        congr 1
        by_cases hq : k₀ = kk ∧ (check_limit s t₀ k₀).1.allowed = true
            ∧ t - w < t₀
        · simp [hq]
        · simp only [if_neg hq]
          simp only [decide_eq_true_eq]
          rw [if_neg (by simpa using hq)]
      have hupdate : (Function.update A k₀ (A k₀ ++
            (if (check_limit s t₀ k₀).1.allowed = true then [t₀]
              else [])) kk).countP (fun x => decide (t - w < x))
          = (A kk).countP (fun x => decide (t - w < x))
            + (if (k₀ = kk ∧ (check_limit s t₀ k₀).1.allowed = true
                  ∧ t - w < t₀) then 1 else 0) := by
        by_cases hkk : kk = k₀
        · subst hkk
          rw [Function.update_same, List.countP_append]
          congr 1
          by_cases hfl : (check_limit s t₀ kk).1.allowed = true
          · rw [if_pos hfl]
            by_cases hlt : t - w < t₀
            · simp [hfl, hlt]
            · simp [hfl, hlt]
          · rw [if_neg hfl]
            simp [hfl]
        · rw [Function.update_noteq hkk,
            if_neg (fun hq => hkk hq.1.symm)]
          omega
      rw [hupdate] at hb
      rw [hcons]
      omega

/-- Pure counting: a trace whose every admission `(kk, t)` is preceded by
fewer than `m` admissions for `kk` above `t - w` has at most `m`
admissions for any key inside any half-open window `(a, a + w]`. -/
theorem countAllowedIn_le_of_admission (w : ℚ) (m : ℕ) (k : String)
    (a : ℚ) :
    ∀ os : List (String × ℚ × Bool),
      (∀ pre kk t post, os = pre ++ (kk, t, true) :: post →
        countAllowedAbove kk (t - w) pre < m) →
      countAllowedIn k a w os ≤ m := by
  intro os
  induction os using List.reverseRecOn with
  | nil => intro _; simp [countAllowedIn]
  | append_singleton ys r ih =>
    intro hadm
    have hadm' : ∀ pre kk t post, ys = pre ++ (kk, t, true) :: post →
        countAllowedAbove kk (t - w) pre < m := by
      intro pre kk t post hys
      exact hadm pre kk t (post ++ [r])
        (by rw [hys, List.append_assoc, List.cons_append])
    rw [countAllowedIn, List.countP_append, ← countAllowedIn]
    by_cases hr : r.1 = k ∧ r.2.2 = true ∧ a < r.2.1 ∧ r.2.1 ≤ a + w
    · obtain ⟨hrk, hrb, hlo, hhi⟩ := hr
      have hre : r = (k, r.2.1, true) := by
        obtain ⟨r1, r2, r3⟩ := r
        simp only at hrk hrb
        rw [hrk, hrb]
      have hbound := hadm ys k r.2.1 [] (by rw [← hre])
      have hmono : countAllowedIn k a w ys ≤
          countAllowedAbove k (r.2.1 - w) ys := by
        rw [countAllowedIn, countAllowedAbove]
        refine countP_le_countP _ _ ys ?_
        intro x _ hx
        rw [decide_eq_true_eq] at hx ⊢
        obtain ⟨hx1, hx2, hx3, _⟩ := hx
        exact ⟨hx1, hx2, by linarith⟩
      have hone : List.countP (fun r =>
          decide (r.1 = k ∧ r.2.2 = true ∧ a < r.2.1 ∧ r.2.1 ≤ a + w))
          [r] = 1 := by
        simp [hrk, hrb, hlo, hhi]
      omega
    · have hzero : List.countP (fun r =>
          decide (r.1 = k ∧ r.2.2 = true ∧ a < r.2.1 ∧ r.2.1 ≤ a + w))
          [r] = 0 := by
        simp only [List.countP_cons, List.countP_nil]
        rw [if_neg (by simpa using hr)]
      have := ih hadm'
      omega

/-- Claim C1: on a validly configured limiter (`max_requests ≥ 1`,
`window_seconds > 0`) and a clock-monotone interleaving of atomic
`check_limit` calls, (a) every key receives at most `max_requests`
admissions whose timestamps lie in any single half-open
`window_seconds`-wide interval `(a, a + w]`, and (b) immediately after
any successful admission the key's pruned request log has length at most
`max_requests`. -/
theorem sliding_window_admission_bound (m : ℕ) (w : ℚ)
    (calls : List (String × ℚ)) (_hm : 1 ≤ m) (hw : 0 < w)
    (hsort : List.Pairwise (· ≤ ·) (calls.map Prod.snd)) :
    (∀ k a,
      countAllowedIn k a w (runCalls (initRL m w) calls).2 ≤ m) ∧
    (∀ (s : RLState) (now : ℚ) (k : String),
      (check_limit s now k).1.allowed = true →
      (dictGet (check_limit s now k).2.requests k).length
        ≤ s.max_requests) := by
  constructor
  · intro k a
    cases calls with
    | nil => simp [runCalls, countAllowedIn]
    | cons c0 rest =>
      refine countAllowedIn_le_of_admission w m k a _ ?_
      intro pre kk t post hdec
      have h := runCalls_admission w m hw (c0 :: rest) (initRL m w)
        (fun _ => []) (fun _ => c0.2 - w) c0.2 rfl rfl
        (fun _ => rfl)
        (by intro j; show c0.2 - w + w ≤ c0.2; linarith)
        (by
          intro x hx
          simp only [List.map_cons, List.mem_cons] at hx
          rcases hx with hx | hx
          · exact le_of_eq hx.symm
          · have := (List.pairwise_cons.mp
              (by simpa using hsort)).1 x hx
            exact this)
        hsort pre kk t post hdec
      omega
  · intro s now k hallow
    have hlen := (check_limit_allowed_iff s now k).mp hallow
    rw [check_limit_requests_self, if_pos hallow, List.length_append]
    simp only [List.length_cons, List.length_nil]
    omega

theorem sliding_window_admission_bound_witness :
    countAllowedIn "u" (-1) 1
      (runCalls (initRL 1 1) [("u", (0 : ℚ))]).2 ≤ 1 :=
  (sliding_window_admission_bound 1 1 [("u", (0 : ℚ))] (by decide)
    (by decide) (by simp)).1 "u" (-1)

end OshuWork
